import Mathlib

/-!
Verification of the precomputed variable-time Straus multiscalar engine
(backend/serial/scalar_mul/precomputed_straus.rs).

The evaluators themselves are translated from the source file.  The external
collaborators (scalar NAF encoding, NAF lookup tables, the Edwards point
group and its four coordinate representations) are not part of the source
core; they are modelled from the spec: points form an additive commutative
group (the four representations denote the same mathematical point, and the
conversions between them are semantic identities), scalars are integers
modulo the group order, and a width-w table stores the odd multiples
1*P, 3*P, ..., (2^(w-1)-1)*P indexed by (digit-1)/2.
-/

namespace PrecomputedStraus

/-- Modelled from the spec: the group order modulus of the scalar field
(a Scalar is an integer modulo the group order, canonically reduced). -/
def ell : Nat := 2 ^ 252 + 27742317777372353535851937790883648493

instance : NeZero ell := ⟨by decide⟩

instance : Fact (1 < ell) := ⟨by decide⟩

/-- Modelled from the spec: a scalar is an integer modulo the group order. -/
abbrev Scalar : Type := ZMod ell

/-- Outcome of a Rust call: either a fatal panic (assertion failure or
out-of-bounds index) or a normal return value. -/
inductive RustResult (α : Type) where
  | panicked : RustResult α
  | ok : α → RustResult α
deriving DecidableEq

/-- Modelled from the spec: the signed digit emitted for the current state
of the width-w NAF recoding (0 for an even state, otherwise the centered
odd residue of the state modulo 2^w). -/
def nafDigit1 (w s : Nat) : Int :=
  if s % 2 = 1 then
    (if s % 2 ^ w < 2 ^ (w - 1) then ((s % 2 ^ w : Nat) : Int)
     else ((s % 2 ^ w : Nat) : Int) - 2 ^ w)
  else 0

/-- Modelled from the spec: the recoding state after emitting one digit
(subtract the digit, then shift right one bit). -/
def nafRest (w s : Nat) : Nat := (((s : Int) - nafDigit1 w s)).toNat / 2

/-- Modelled from the spec: emit a fixed number of width-w NAF digits. -/
def nafGo (w : Nat) : Nat → Nat → List Int
  | 0, _ => []
  | f + 1, s => nafDigit1 w s :: nafGo w f (nafRest w s)

/-- Modelled from the spec: Scalar::non_adjacent_form (scalar.rs is not under
src/): the width-w NAF digit sequence d_0..d_256 of a scalar value, an
ordered sequence of 257 signed integers with sum(d_i * 2^i) = scalar,
each digit 0 or odd with absolute value below 2^(w-1). -/
def non_adjacent_form (w s : Nat) : List Int := nafGo w 257 s

/-- The recoding state after n digit-emission steps. -/
def nafState (w : Nat) : Nat → Nat → Nat
  | 0, s => s
  | n + 1, s => nafState w n (nafRest w s)

/-- The integer value sum(d_j * 2^j) of the first n entries of a digit list. -/
def lowVal (l : List Int) (n : Nat) : Int :=
  ∑ j in Finset.range n, l.getD j 0 * 2 ^ j

section Group

variable {G : Type} [AddCommGroup G]

/-- Modelled from the spec: NafLookupTable8/NafLookupTable5 construction
(window.rs is not under src/): the table of odd multiples
1*P, 3*P, ..., (2^(w-1)-1)*P of a point. -/
def nafLookupTable (w : Nat) (P : G) : List G :=
  (List.range (2 ^ (w - 2))).map (fun i => (2 * i + 1) • P)

/-- Modelled from the spec: table lookup of an odd positive digit x, stored
at index (x-1)/2; an out-of-range digit is an out-of-bounds access. -/
def lookupSelect (t : List G) (x : Nat) : Option G :=
  t.get? ((x - 1) / 2)

/-- One signed-digit accumulation step of the evaluators, from the source:
if the digit is positive add the selected table entry, if negative subtract
it, if zero do nothing.  none models a panic. -/
def applyDigit (t : List G) (d : Int) (R : G) : Option G :=
  if 0 < d then (lookupSelect t d.toNat).map (fun p => R + p)
  else if d < 0 then (lookupSelect t (-d).toNat).map (fun p => R - p)
  else some R

/-- Signed-digit accumulation step of the subset evaluator, from the source:
the table is fetched from the table list at base_idx only when the digit is
nonzero; a bad index is an out-of-bounds panic (none). -/
def applyDigitIdx (tables : List (List G)) (idx : Nat) (d : Int) (R : G) :
    Option G :=
  if 0 < d then
    (tables.get? idx).bind (fun t => (lookupSelect t d.toNat).map (fun p => R + p))
  else if d < 0 then
    (tables.get? idx).bind (fun t => (lookupSelect t (-d).toNat).map (fun p => R - p))
  else some R

/-- Inner accumulation of optional_mixed_multiscalar_mul at digit position j:
fold the (table, naf) entries into the accumulator. -/
def innerFold (entries : List (List G × List Int)) (j : Nat) (R : G) :
    Option G :=
  entries.foldlM (fun R e => (e.2.get? j).bind (fun d => applyDigit e.1 d R)) R

/-- One digit position of optional_mixed_multiscalar_mul: double the
accumulator, then fold in the dynamic entries, then the static entries. -/
def strausStep (dynE statE : List (List G × List Int)) (S : G) (j : Nat) :
    Option G :=
  (innerFold dynE j (S + S)).bind (fun R => innerFold statE j R)

/-- The main double-and-add loop of optional_mixed_multiscalar_mul, from the
source: for j in (0..256).rev(), starting from the identity. -/
def strausLoop (dynE statE : List (List G × List Int)) : Option G :=
  (List.range 256).reverse.foldlM (strausStep dynE statE) (0 : G)

/-- Inner accumulation of vartime_subset_multiscalar_mul at digit position j:
fold the (base index, naf) pairs into the accumulator, looking the table up
in the static table list by index. -/
def subsetInner (tables : List (List G)) (prs : List (Nat × List Int))
    (j : Nat) (R : G) : Option G :=
  prs.foldlM (fun R e => (e.2.get? j).bind (fun d => applyDigitIdx tables e.1 d R)) R

/-- One digit position of vartime_subset_multiscalar_mul. -/
def subsetStep (tables : List (List G)) (prs : List (Nat × List Int))
    (S : G) (j : Nat) : Option G :=
  subsetInner tables prs j (S + S)

/-- The main double-and-add loop of vartime_subset_multiscalar_mul, from the
source: for j in (0..256).rev(), starting from the identity. -/
def subsetLoop (tables : List (List G)) (prs : List (Nat × List Int)) :
    Option G :=
  (List.range 256).reverse.foldlM (subsetStep tables prs) (0 : G)

/-- Rust's collect::<Option<Vec<_>>>(): all-or-nothing collection. -/
def collectOption {α : Type} : List (Option α) → Option (List α)
  | [] => some []
  | none :: _ => none
  | some a :: rest => (collectOption rest).map (fun l => a :: l)

/-- VartimePrecomputedStraus::new: build a width-8 static lookup table per
static point. -/
def VartimePrecomputedStraus.new (static_points : List G) : List (List G) :=
  static_points.map (nafLookupTable 8)

/-- VartimePrecomputedSubsetStraus::new: identical width-8 static tables. -/
def VartimePrecomputedSubsetStraus.new (static_points : List G) :
    List (List G) :=
  static_points.map (nafLookupTable 8)

/-- optional_mixed_multiscalar_mul, translated from the source: encode all
scalars as width-5 NAFs, build a width-5 table per dynamic point (the whole
call returns None if any dynamic point is absent), assert the length
preconditions, then run the interleaved double-and-add loop. -/
def optional_mixed_multiscalar_mul (tables : List (List G))
    (static_scalars dynamic_scalars : List Scalar)
    (dynamic_points : List (Option G)) : RustResult (Option G) :=
  let static_nafs := static_scalars.map (fun c => non_adjacent_form 5 c.val)
  let dynamic_nafs := dynamic_scalars.map (fun c => non_adjacent_form 5 c.val)
  (collectOption (dynamic_points.map (fun Popt => Popt.map (nafLookupTable 5)))).elim
    (RustResult.ok none)
    (fun dynamic_lookup_tables =>
      if tables.length = static_nafs.length ∧
          dynamic_lookup_tables.length = dynamic_nafs.length then
        (strausLoop (dynamic_lookup_tables.zip dynamic_nafs)
            (tables.zip static_nafs)).elim
          RustResult.panicked (fun S => RustResult.ok (some S))
      else RustResult.panicked)

/-- vartime_subset_multiscalar_mul, translated from the source: unzip the
(index, scalar) pairs, encode the scalars as width-5 NAFs, assert that the
number of pairs does not exceed the number of static tables, then run the
double-and-add loop over the pairs only. -/
def vartime_subset_multiscalar_mul (tables : List (List G))
    (static_scalars : List (Nat × Scalar)) : RustResult G :=
  let static_scalars_pos := static_scalars.map Prod.fst
  let static_scalars_vals := static_scalars.map Prod.snd
  let static_nafs := static_scalars_vals.map (fun c => non_adjacent_form 5 c.val)
  if static_scalars_pos.length ≤ tables.length then
    (subsetLoop tables (static_scalars_pos.zip static_nafs)).elim
      RustResult.panicked (fun S => RustResult.ok S)
  else RustResult.panicked

/-- Modelled from the spec: the direct sum sum(k_i * P_i) computed by plain
scalar multiplication and group addition without tables. -/
def naive_multiscalar (ks : List Scalar) (ps : List G) : G :=
  ((ks.zip ps).map (fun e => e.1.val • e.2)).sum

/-- Modelled from the claim of the spec that the evaluation loop runs over
digit positions j from 256 down to 0 (257 positions): the same subset
double-and-add loop, but over 257 digit positions. -/
def subsetLoop257 (tables : List (List G)) (prs : List (Nat × List Int)) :
    Option G :=
  (List.range 257).reverse.foldlM (subsetStep tables prs) (0 : G)

end Group

/-- A well-formed digit list for a width-w table: 257 digits, each 0 or odd
with absolute value at most 2^(w-1) - 1. -/
def GoodNaf (w : Nat) (l : List Int) : Prop :=
  l.length = 257 ∧
  ∀ j, l.getD j 0 = 0 ∨
    ((l.getD j 0).natAbs % 2 = 1 ∧ (l.getD j 0).natAbs ≤ 2 ^ (w - 1) - 1)

theorem nafGo_length (w f : Nat) : ∀ s, (nafGo w f s).length = f := by
  induction f with
  | zero => intro s; rfl
  | succ f ih => intro s; simp [nafGo, ih]

theorem non_adjacent_form_length (w s : Nat) :
    (non_adjacent_form w s).length = 257 := nafGo_length w 257 s

theorem nafDigit1_zero (w : Nat) : nafDigit1 w 0 = 0 := by
  simp [nafDigit1]

theorem nafRest_zero (w : Nat) : nafRest w 0 = 0 := by
  simp [nafRest, nafDigit1]

theorem nafGo_zero_getD (w : Nat) : ∀ f j, (nafGo w f 0).getD j 0 = 0 := by
  intro f
  induction f with
  | zero => intro j; simp [nafGo]
  | succ f ih =>
    intro j
    cases j with
    | zero => simp [nafGo, nafDigit1_zero]
    | succ j => simpa [nafGo, nafRest_zero] using ih j

theorem nafDigit1_good5 (s : Nat) :
    nafDigit1 5 s = 0 ∨
      ((nafDigit1 5 s).natAbs % 2 = 1 ∧ (nafDigit1 5 s).natAbs ≤ 15) := by
  unfold nafDigit1
  simp only [show (2:Nat) ^ 5 = 32 from by norm_num,
    show (2:Nat) ^ (5 - 1) = 16 from by norm_num,
    show (2:Int) ^ 5 = 32 from by norm_num]
  have h1 : s % 32 % 2 = s % 2 := Nat.mod_mod_of_dvd s (by norm_num)
  have h2 : s % 32 < 32 := Nat.mod_lt _ (by norm_num)
  split_ifs with ho hc
  · right; constructor <;> omega
  · right; constructor <;> omega
  · left; rfl

theorem nafStep5 (s : Nat) :
    (s : Int) = nafDigit1 5 s + 2 * (nafRest 5 s : Int) := by
  unfold nafRest nafDigit1
  simp only [show (2:Nat) ^ 5 = 32 from by norm_num,
    show (2:Nat) ^ (5 - 1) = 16 from by norm_num,
    show (2:Int) ^ 5 = 32 from by norm_num]
  have h1 : s % 32 % 2 = s % 2 := Nat.mod_mod_of_dvd s (by norm_num)
  have h2 : s % 32 < 32 := Nat.mod_lt _ (by norm_num)
  split_ifs with ho hc <;> omega

theorem nafRest5_le (m s : Nat) (h : s ≤ 2 ^ (m + 1)) :
    nafRest 5 s ≤ 2 ^ m := by
  unfold nafRest nafDigit1
  simp only [show (2:Nat) ^ 5 = 32 from by norm_num,
    show (2:Nat) ^ (5 - 1) = 16 from by norm_num,
    show (2:Int) ^ 5 = 32 from by norm_num]
  have h1 : s % 32 % 2 = s % 2 := Nat.mod_mod_of_dvd s (by norm_num)
  have h2 : s % 32 < 32 := Nat.mod_lt _ (by norm_num)
  have hpow : (2:Nat) ^ (m + 1) = 2 * 2 ^ m := by ring
  by_cases hm : 5 ≤ m + 1
  · have hdvd : (32 : Nat) ∣ 2 ^ (m + 1) := by
      have hd : (2:Nat) ^ 5 ∣ 2 ^ (m + 1) := pow_dvd_pow 2 hm
      simpa using hd
    split_ifs with ho hc <;> omega
  · have hle : (2:Nat) ^ (m + 1) ≤ 16 := by
      calc (2:Nat) ^ (m + 1) ≤ 2 ^ 4 := Nat.pow_le_pow_right (by norm_num) (by omega)
        _ = 16 := by norm_num
    split_ifs with ho hc <;> omega

theorem nafState_of_zero (w : Nat) : ∀ k, nafState w k 0 = 0 := by
  intro k
  induction k with
  | zero => rfl
  | succ k ih => simpa [nafState, nafRest_zero] using ih

theorem nafState_add (w a b : Nat) : ∀ s,
    nafState w (a + b) s = nafState w b (nafState w a s) := by
  induction a with
  | zero => intro s; rw [Nat.zero_add]; rfl
  | succ a ih =>
    intro s
    have hr : a + 1 + b = (a + b) + 1 := by omega
    rw [hr]
    show nafState w (a + b) (nafRest w s) = nafState w b (nafState w (a + 1) s)
    rw [ih (nafRest w s)]
    rfl

theorem nafState_zero5 (m : Nat) : ∀ s, s ≤ 2 ^ m → nafState 5 (m + 1) s = 0 := by
  induction m with
  | zero =>
    intro s hs
    interval_cases s <;> decide
  | succ m ih =>
    intro s hs
    have h1 : nafRest 5 s ≤ 2 ^ m := nafRest5_le m s hs
    show nafState 5 (m + 1) (nafRest 5 s) = 0
    exact ih _ h1

theorem lowVal_zero (l : List Int) : lowVal l 0 = 0 := by simp [lowVal]

theorem lowVal_succ (l : List Int) (n : Nat) :
    lowVal l (n + 1) = lowVal l n + l.getD n 0 * 2 ^ n := by
  simp [lowVal, Finset.sum_range_succ]

theorem lowVal_cons (d : Int) (t : List Int) (n : Nat) :
    lowVal (d :: t) (n + 1) = d + 2 * lowVal t n := by
  unfold lowVal
  rw [Finset.sum_range_succ']
  have hterm : ∀ j, (d :: t).getD (j + 1) 0 * 2 ^ (j + 1) =
      2 * (t.getD j 0 * 2 ^ j) := by
    intro j
    simp [List.getD_cons_succ]
    ring
  rw [Finset.sum_congr rfl (fun j _ => hterm j), ← Finset.mul_sum]
  simp [List.getD_cons_zero]
  ring

theorem lowVal_nafGo5 (n : Nat) : ∀ f s, n ≤ f →
    lowVal (nafGo 5 f s) n = (s : Int) - 2 ^ n * (nafState 5 n s : Int) := by
  induction n with
  | zero =>
    intro f s h
    simp [lowVal_zero, nafState]
  | succ n ih =>
    intro f s h
    obtain ⟨f', rfl⟩ : ∃ f', f = f' + 1 := ⟨f - 1, by omega⟩
    rw [show nafGo 5 (f' + 1) s = nafDigit1 5 s :: nafGo 5 f' (nafRest 5 s) from rfl]
    rw [lowVal_cons, ih f' (nafRest 5 s) (by omega)]
    have hstep := nafStep5 s
    have hstate : nafState 5 (n + 1) s = nafState 5 n (nafRest 5 s) := rfl
    rw [hstate]
    linear_combination -hstep

theorem naf_reconstruct (s : Nat) (hs : s ≤ 2 ^ 253) :
    lowVal (non_adjacent_form 5 s) 256 = (s : Int) := by
  have h254 : nafState 5 254 s = 0 := nafState_zero5 253 s hs
  have h256 : nafState 5 256 s = 0 := by
    have hr : (256 : Nat) = 254 + 2 := rfl
    rw [hr, nafState_add, h254, nafState_of_zero]
  unfold non_adjacent_form
  rw [lowVal_nafGo5 256 257 s (by omega), h256]
  simp

theorem nafGo_good5 : ∀ f s j, (nafGo 5 f s).getD j 0 = 0 ∨
    (((nafGo 5 f s).getD j 0).natAbs % 2 = 1 ∧
      ((nafGo 5 f s).getD j 0).natAbs ≤ 15) := by
  intro f
  induction f with
  | zero => intro s j; left; simp [nafGo]
  | succ f ih =>
    intro s j
    cases j with
    | zero => simpa [nafGo] using nafDigit1_good5 s
    | succ j => simpa [nafGo] using ih (nafRest 5 s) j

theorem goodNaf_naf5 (s : Nat) : GoodNaf 5 (non_adjacent_form 5 s) := by
  refine ⟨non_adjacent_form_length 5 s, fun j => ?_⟩
  have h := nafGo_good5 257 s j
  simpa [non_adjacent_form, show (2:Nat) ^ (5 - 1) - 1 = 15 from by norm_num] using h

theorem GoodNaf.mono {w w' : Nat} (h : w ≤ w') {l : List Int}
    (hg : GoodNaf w l) : GoodNaf w' l := by
  refine ⟨hg.1, fun j => ?_⟩
  rcases hg.2 j with h0 | ⟨hodd, hb⟩
  · exact Or.inl h0
  · right
    refine ⟨hodd, le_trans hb ?_⟩
    have hp : (2:Nat) ^ (w - 1) ≤ 2 ^ (w' - 1) :=
      Nat.pow_le_pow_right (by norm_num) (by omega)
    omega

theorem scalar_val_le (k : Scalar) : k.val ≤ 2 ^ 253 := by
  have h := ZMod.val_lt k
  have he : ell ≤ 2 ^ 253 := by decide
  omega

theorem scalar_reconstruct (k : Scalar) :
    lowVal (non_adjacent_form 5 k.val) 256 = (k.val : Int) :=
  naf_reconstruct k.val (scalar_val_le k)

theorem collectOption_map_some {α : Type} (l : List α) :
    collectOption (l.map some) = some l := by
  induction l with
  | nil => rfl
  | cons a l ih => simp [collectOption, ih]

theorem collectOption_none {α : Type} (l : List (Option α)) (h : none ∈ l) :
    collectOption l = none := by
  induction l with
  | nil => cases h
  | cons a l ih =>
    cases a with
    | none => rfl
    | some b =>
      rcases List.mem_cons.1 h with h' | h'
      · cases h'
      · simp [collectOption, ih h']

theorem foldlM_none {α β : Type} (f : β → α → Option β) (l : List α)
    (h : ∃ a ∈ l, ∀ b, f b a = none) : ∀ b₀, l.foldlM f b₀ = none := by
  induction l with
  | nil =>
    rcases h with ⟨a, ha, _⟩
    cases ha
  | cons x l ih =>
    intro b₀
    rcases h with ⟨a, ha, hf⟩
    rcases List.mem_cons.1 ha with rfl | ha'
    · simp [List.foldlM_cons, hf b₀]
    · rw [List.foldlM_cons]
      cases hfx : f b₀ x with
      | none => simp
      | some b' => simpa using ih ⟨a, ha', hf⟩ b'

theorem foldlM_congr {α β : Type} {f g : β → α → Option β} {l : List α}
    (h : ∀ a ∈ l, ∀ b, f b a = g b a) : ∀ b₀, l.foldlM f b₀ = l.foldlM g b₀ := by
  induction l with
  | nil => intro b₀; rfl
  | cons x l ih =>
    intro b₀
    rw [List.foldlM_cons, List.foldlM_cons, h x (List.mem_cons_self x l) b₀]
    cases g b₀ x with
    | none => simp
    | some b' => simpa using ih (fun a ha b => h a (List.mem_cons_of_mem _ ha) b) b'

section GroupLemmas

variable {G : Type} [AddCommGroup G]

theorem get?_eq_getD_of_lt {α : Type} (l : List α) (d : α) {j : Nat}
    (h : j < l.length) : l.get? j = some (l.getD j d) := by
  rw [List.get?_eq_getElem?, List.getElem?_eq_getElem h]
  simp [List.getD_eq_getElem?_getD, List.getElem?_eq_getElem h]

theorem tables_get? (ps : List G) {i : Nat} (h : i < ps.length) :
    (ps.map (nafLookupTable 8)).get? i =
      some (nafLookupTable 8 (ps.getD i 0)) := by
  rw [List.get?_eq_getElem?, List.getElem?_map, List.getElem?_eq_getElem h]
  simp [List.getD_eq_getElem?_getD, List.getElem?_eq_getElem h]

theorem lookupSelect_nafLookupTable {w : Nat} (hw : 2 ≤ w) (P : G) {x : Nat}
    (hodd : x % 2 = 1) (hx : x ≤ 2 ^ (w - 1) - 1) :
    lookupSelect (nafLookupTable w P) x = some (x • P) := by
  unfold lookupSelect nafLookupTable
  have hpw : (2:Nat) ^ (w - 1) = 2 ^ (w - 2) * 2 := by
    rw [show w - 1 = (w - 2) + 1 from by omega, pow_succ]
  have hlt : (x - 1) / 2 < 2 ^ (w - 2) := by
    have hpos : 0 < (2:Nat) ^ (w - 2) := Nat.pos_pow_of_pos _ (by norm_num)
    omega
  rw [List.get?_eq_getElem?, List.getElem?_map, List.getElem?_range hlt]
  simp only [Option.map_some']
  congr 1
  have hx2 : 2 * ((x - 1) / 2) + 1 = x := by omega
  rw [hx2]

theorem applyDigit_eval {w : Nat} (hw : 2 ≤ w) (P R : G) {d : Int}
    (hgood : d = 0 ∨ (d.natAbs % 2 = 1 ∧ d.natAbs ≤ 2 ^ (w - 1) - 1)) :
    applyDigit (nafLookupTable w P) d R = some (R + d • P) := by
  rcases hgood with rfl | ⟨hodd, hb⟩
  · simp [applyDigit]
  · unfold applyDigit
    rcases lt_trichotomy d 0 with hneg | rfl | hpos
    · rw [if_neg (by omega), if_pos hneg]
      have h1 : (-d).toNat % 2 = 1 := by omega
      have h2 : (-d).toNat ≤ 2 ^ (w - 1) - 1 := by omega
      rw [lookupSelect_nafLookupTable hw P h1 h2]
      simp only [Option.map_some']
      congr 1
      have hd : ((-d).toNat : Int) = -d := by omega
      rw [sub_eq_add_neg]
      congr 1
      rw [← natCast_zsmul, hd, neg_zsmul, neg_neg]
    · exact absurd hodd (by norm_num)
    · rw [if_pos hpos]
      have h1 : d.toNat % 2 = 1 := by omega
      have h2 : d.toNat ≤ 2 ^ (w - 1) - 1 := by omega
      rw [lookupSelect_nafLookupTable hw P h1 h2]
      simp only [Option.map_some']
      congr 1
      have hd : ((d.toNat : Int)) = d := Int.toNat_of_nonneg (le_of_lt hpos)
      rw [← natCast_zsmul, hd]

theorem applyDigitIdx_eq (tables : List (List G)) {idx : Nat} {t : List G}
    (ht : tables.get? idx = some t) (d : Int) (R : G) :
    applyDigitIdx tables idx d R = applyDigit t d R := by
  have ht' : tables[idx]? = some t := by rw [← List.get?_eq_getElem?]; exact ht
  unfold applyDigitIdx applyDigit
  split_ifs <;> simp [ht']

theorem applyDigitIdx_zero (tables : List (List G)) (idx : Nat) (R : G) :
    applyDigitIdx tables idx 0 R = some R := by
  simp [applyDigitIdx]

theorem applyDigitIdx_oob (tables : List (List G)) {idx : Nat}
    (h : tables.length ≤ idx) {d : Int} (hd : d ≠ 0) (R : G) :
    applyDigitIdx tables idx d R = none := by
  have ht : tables.get? idx = none := List.get?_eq_none.2 h
  unfold applyDigitIdx
  rcases lt_trichotomy d 0 with hneg | rfl | hpos
  · rw [if_neg (by omega), if_pos hneg, ht]
    rfl
  · exact absurd rfl hd
  · rw [if_pos hpos, ht]
    rfl

theorem innerFold_eval {w : Nat} (hw : 2 ≤ w) (pes : List (G × List Int))
    (j : Nat) (hj : j < 257) :
    ∀ R, (∀ e ∈ pes, GoodNaf w e.2) →
    innerFold (pes.map (fun e => (nafLookupTable w e.1, e.2))) j R =
      some (R + (pes.map (fun e => e.2.getD j 0 • e.1)).sum) := by
  induction pes with
  | nil =>
    intro R _
    simp [innerFold]
  | cons e pes ih =>
    intro R h
    have hg := h e (List.mem_cons_self e pes)
    have hjlen : j < e.2.length := by rw [hg.1]; exact hj
    have hget : e.2.get? j = some (e.2.getD j 0) := get?_eq_getD_of_lt e.2 0 hjlen
    simp only [List.map_cons, innerFold, List.foldlM_cons]
    rw [hget]
    simp only [Option.bind_eq_bind, Option.some_bind]
    rw [applyDigit_eval hw e.1 R (hg.2 j)]
    simp only [Option.some_bind]
    have ih' := ih (R + e.2.getD j 0 • e.1) (fun e' he' => h e' (List.mem_cons_of_mem _ he'))
    simp only [innerFold] at ih'
    rw [ih']
    simp [add_assoc]

theorem listMap_congr {α β : Type} {f g : α → β} :
    ∀ {l : List α}, (∀ a ∈ l, f a = g a) → l.map f = l.map g := by
  intro l
  induction l with
  | nil => intro _; rfl
  | cons a l ih =>
    intro h
    simp only [List.map_cons]
    rw [h a (List.mem_cons_self a l), ih (fun x hx => h x (List.mem_cons_of_mem _ hx))]

theorem map_zip_swap {α β γ : Type} (f : α → β → γ) :
    ∀ (l₁ : List α) (l₂ : List β),
    (l₁.zip l₂).map (fun e => f e.1 e.2) = (l₂.zip l₁).map (fun e => f e.2 e.1) := by
  intro l₁
  induction l₁ with
  | nil => intro l₂; cases l₂ <;> rfl
  | cons a l₁ ih =>
    intro l₂
    cases l₂ with
    | nil => rfl
    | cons b l₂ =>
      simp only [List.zip_cons_cons, List.map_cons]
      rw [ih l₂]

theorem sum_map_nsmul_lowstep {α : Type} (pt : α → G) (dg : α → List Int)
    (l : List α) (n : Nat) :
    (2 ^ n : Nat) • ((l.map (fun e => (dg e).getD n 0 • pt e)).sum) +
      (l.map (fun e => lowVal (dg e) n • pt e)).sum =
    (l.map (fun e => lowVal (dg e) (n + 1) • pt e)).sum := by
  induction l with
  | nil => simp
  | cons e l ih =>
    simp only [List.map_cons, List.sum_cons, smul_add]
    have h1 : (2 ^ n : Nat) • ((dg e).getD n 0 • pt e) + lowVal (dg e) n • pt e =
        lowVal (dg e) (n + 1) • pt e := by
      rw [lowVal_succ, add_zsmul, ← natCast_zsmul, smul_smul, add_comm]
      congr 1
      rw [show (((2:Nat) ^ n : Nat) : Int) * (dg e).getD n 0 =
        (dg e).getD n 0 * 2 ^ n from by push_cast; ring]
    rw [← ih, ← h1]
    abel

theorem strausLoopAux (dynPes statPes : List (G × List Int))
    (hdyn : ∀ e ∈ dynPes, GoodNaf 5 e.2) (hstat : ∀ e ∈ statPes, GoodNaf 8 e.2) :
    ∀ n, n ≤ 257 → ∀ S₀ : G,
    (List.range n).reverse.foldlM
        (strausStep (dynPes.map (fun e => (nafLookupTable 5 e.1, e.2)))
          (statPes.map (fun e => (nafLookupTable 8 e.1, e.2)))) S₀ =
      some ((2 ^ n) • S₀ +
        ((dynPes ++ statPes).map (fun e => lowVal e.2 n • e.1)).sum) := by
  intro n
  induction n with
  | zero =>
    intro _ S₀
    have h0 : (((dynPes ++ statPes).map (fun e => lowVal e.2 0 • e.1)).sum : G) = 0 := by
      apply List.sum_eq_zero
      intro x hx
      rcases List.mem_map.1 hx with ⟨e, _, rfl⟩
      simp [lowVal_zero]
    simp only [List.range_zero, List.reverse_nil, List.foldlM_nil, pow_zero,
      one_smul, h0, add_zero]
    rfl
  | succ n ih =>
    intro hn S₀
    have hrev : (List.range (n + 1)).reverse = n :: (List.range n).reverse := by
      rw [List.range_succ, List.reverse_append]
      rfl
    rw [hrev, List.foldlM_cons]
    have hstep : strausStep (dynPes.map (fun e => (nafLookupTable 5 e.1, e.2)))
        (statPes.map (fun e => (nafLookupTable 8 e.1, e.2))) S₀ n =
        some (S₀ + S₀ +
          ((dynPes.map (fun e => e.2.getD n 0 • e.1)).sum +
           (statPes.map (fun e => e.2.getD n 0 • e.1)).sum)) := by
      unfold strausStep
      rw [innerFold_eval (by norm_num) dynPes n (by omega) (S₀ + S₀) hdyn]
      simp only [Option.bind_eq_bind, Option.some_bind]
      rw [innerFold_eval (by norm_num) statPes n (by omega) _ hstat]
      rw [add_assoc]
    rw [hstep]
    simp only [Option.bind_eq_bind, Option.some_bind]
    rw [ih (by omega)]
    congr 1
    have hDS : (dynPes.map (fun e => e.2.getD n 0 • e.1)).sum +
        (statPes.map (fun e => e.2.getD n 0 • e.1)).sum =
        ((dynPes ++ statPes).map (fun e => e.2.getD n 0 • e.1)).sum := by
      rw [List.map_append, List.sum_append]
    rw [hDS, smul_add, smul_add]
    have hT := sum_map_nsmul_lowstep (G := G) Prod.fst Prod.snd (dynPes ++ statPes) n
    have hdbl : (2 ^ n : Nat) • S₀ + (2 ^ n : Nat) • S₀ = (2 ^ (n + 1) : Nat) • S₀ := by
      rw [← add_nsmul]
      congr 1
      rw [pow_succ]
      ring
    rw [← hT, ← hdbl]
    abel

theorem mixed_eval (ps qs : List G) (as bs : List Scalar)
    (h1 : as.length = ps.length) (h2 : bs.length = qs.length) :
    optional_mixed_multiscalar_mul (VartimePrecomputedStraus.new ps) as bs
        (qs.map some) =
      RustResult.ok (some (((as.zip ps).map (fun e => e.1.val • e.2)).sum +
        ((bs.zip qs).map (fun e => e.1.val • e.2)).sum)) := by
  have hcol : collectOption ((qs.map some).map
      (fun Popt => Popt.map (nafLookupTable (G := G) 5))) =
      some (qs.map (nafLookupTable 5)) := by
    rw [List.map_map]
    have hc : ((fun Popt => Option.map (nafLookupTable (G := G) 5) Popt) ∘ some) =
        (some ∘ nafLookupTable 5) := by
      funext q
      rfl
    rw [hc, ← List.map_map]
    exact collectOption_map_some _
  simp only [optional_mixed_multiscalar_mul, VartimePrecomputedStraus.new, hcol,
    Option.elim]
  rw [if_pos (by simp [h1, h2])]
  have hdynE : (qs.map (nafLookupTable (G := G) 5)).zip
      (bs.map (fun c => non_adjacent_form 5 c.val)) =
      ((qs.zip bs).map (fun e => (e.1, non_adjacent_form 5 e.2.val))).map
        (fun e => (nafLookupTable 5 e.1, e.2)) := by
    rw [List.zip_map, List.map_map]
    rfl
  have hstatE : (ps.map (nafLookupTable (G := G) 8)).zip
      (as.map (fun c => non_adjacent_form 5 c.val)) =
      ((ps.zip as).map (fun e => (e.1, non_adjacent_form 5 e.2.val))).map
        (fun e => (nafLookupTable 8 e.1, e.2)) := by
    rw [List.zip_map, List.map_map]
    rfl
  rw [hdynE, hstatE]
  unfold strausLoop
  rw [strausLoopAux ((qs.zip bs).map (fun e => (e.1, non_adjacent_form 5 e.2.val)))
    ((ps.zip as).map (fun e => (e.1, non_adjacent_form 5 e.2.val)))
    (by
      intro e he
      rcases List.mem_map.1 he with ⟨e', _, rfl⟩
      exact goodNaf_naf5 _)
    (by
      intro e he
      rcases List.mem_map.1 he with ⟨e', _, rfl⟩
      exact (goodNaf_naf5 _).mono (by norm_num))
    256 (by norm_num) 0]
  simp only [Option.elim]
  congr 1
  congr 1
  rw [smul_zero, zero_add, List.map_append, List.sum_append, List.map_map, List.map_map]
  have hpt : ∀ e : G × Scalar,
      ((fun e : G × List Int => lowVal e.2 256 • e.1) ∘
        (fun e : G × Scalar => (e.1, non_adjacent_form 5 e.2.val))) e =
      e.2.val • e.1 := by
    intro e
    show lowVal (non_adjacent_form 5 e.2.val) 256 • e.1 = e.2.val • e.1
    rw [scalar_reconstruct e.2, natCast_zsmul]
  have hB : ((qs.zip bs).map
      ((fun e : G × List Int => lowVal e.2 256 • e.1) ∘
        (fun e : G × Scalar => (e.1, non_adjacent_form 5 e.2.val)))) =
      ((bs.zip qs).map (fun e => e.1.val • e.2)) := by
    rw [listMap_congr (fun e _ => hpt e)]
    exact map_zip_swap (fun (q : G) (b : Scalar) => b.val • q) qs bs
  have hA : ((ps.zip as).map
      ((fun e : G × List Int => lowVal e.2 256 • e.1) ∘
        (fun e : G × Scalar => (e.1, non_adjacent_form 5 e.2.val)))) =
      ((as.zip ps).map (fun e => e.1.val • e.2)) := by
    rw [listMap_congr (fun e _ => hpt e)]
    exact map_zip_swap (fun (q : G) (b : Scalar) => b.val • q) ps as
  rw [hA, hB]
  exact add_comm _ _

theorem subsetInner_eval (ps : List G) (prs : List (Nat × List Int))
    (j : Nat) (hj : j < 257) :
    ∀ R, (∀ e ∈ prs, GoodNaf 8 e.2 ∧ (e.1 < ps.length ∨ ∀ i, e.2.getD i 0 = 0)) →
    subsetInner (ps.map (nafLookupTable 8)) prs j R =
      some (R + (prs.map (fun e => e.2.getD j 0 • ps.getD e.1 0)).sum) := by
  induction prs with
  | nil =>
    intro R _
    simp [subsetInner]
  | cons e prs ih =>
    intro R h
    have hg := h e (List.mem_cons_self e prs)
    have hjlen : j < e.2.length := by rw [hg.1.1]; exact hj
    have hget : e.2.get? j = some (e.2.getD j 0) := get?_eq_getD_of_lt e.2 0 hjlen
    simp only [subsetInner, List.foldlM_cons, List.map_cons]
    rw [hget]
    simp only [Option.bind_eq_bind, Option.some_bind]
    have hstep : applyDigitIdx (ps.map (nafLookupTable 8)) e.1 (e.2.getD j 0) R =
        some (R + e.2.getD j 0 • ps.getD e.1 0) := by
      rcases hg.2 with hin | hzero
      · rw [applyDigitIdx_eq _ (tables_get? ps hin)]
        exact applyDigit_eval (by norm_num) _ R (hg.1.2 j)
      · rw [hzero j, applyDigitIdx_zero]
        simp
    rw [hstep]
    simp only [Option.some_bind]
    have ih' := ih (R + e.2.getD j 0 • ps.getD e.1 0)
      (fun e' he' => h e' (List.mem_cons_of_mem _ he'))
    simp only [subsetInner] at ih'
    rw [ih']
    simp [add_assoc]

theorem subsetLoopAux (ps : List G) (prs : List (Nat × List Int))
    (h : ∀ e ∈ prs, GoodNaf 8 e.2 ∧ (e.1 < ps.length ∨ ∀ i, e.2.getD i 0 = 0)) :
    ∀ n, n ≤ 257 → ∀ S₀ : G,
    (List.range n).reverse.foldlM (subsetStep (ps.map (nafLookupTable 8)) prs) S₀ =
      some ((2 ^ n) • S₀ +
        (prs.map (fun e => lowVal e.2 n • ps.getD e.1 0)).sum) := by
  intro n
  induction n with
  | zero =>
    intro _ S₀
    have h0 : ((prs.map (fun e => lowVal e.2 0 • ps.getD e.1 0)).sum : G) = 0 := by
      apply List.sum_eq_zero
      intro x hx
      rcases List.mem_map.1 hx with ⟨e, _, rfl⟩
      simp [lowVal_zero]
    simp only [List.range_zero, List.reverse_nil, List.foldlM_nil, pow_zero,
      one_smul, h0, add_zero]
    rfl
  | succ n ih =>
    intro hn S₀
    have hrev : (List.range (n + 1)).reverse = n :: (List.range n).reverse := by
      rw [List.range_succ, List.reverse_append]
      rfl
    rw [hrev, List.foldlM_cons]
    have hstep : subsetStep (ps.map (nafLookupTable 8)) prs S₀ n =
        some (S₀ + S₀ + (prs.map (fun e => e.2.getD n 0 • ps.getD e.1 0)).sum) := by
      unfold subsetStep
      exact subsetInner_eval ps prs n (by omega) (S₀ + S₀) h
    rw [hstep]
    simp only [Option.bind_eq_bind, Option.some_bind]
    rw [ih (by omega)]
    congr 1
    rw [smul_add, smul_add]
    have hT := sum_map_nsmul_lowstep (G := G)
      (fun e : Nat × List Int => ps.getD e.1 0) Prod.snd prs n
    have hdbl : (2 ^ n : Nat) • S₀ + (2 ^ n : Nat) • S₀ = (2 ^ (n + 1) : Nat) • S₀ := by
      rw [← add_nsmul]
      congr 1
      rw [pow_succ]
      ring
    rw [← hT, ← hdbl]
    abel

theorem subset_eval (ps : List G) (prs : List (Nat × Scalar))
    (hlen : prs.length ≤ ps.length)
    (hidx : ∀ e ∈ prs, e.1 < ps.length ∨ e.2 = 0) :
    vartime_subset_multiscalar_mul (VartimePrecomputedSubsetStraus.new ps) prs =
      RustResult.ok ((prs.map (fun e => e.2.val • ps.getD e.1 0)).sum) := by
  simp only [vartime_subset_multiscalar_mul, VartimePrecomputedSubsetStraus.new]
  rw [if_pos (by simpa using hlen)]
  have hz : (prs.map Prod.fst).zip ((prs.map Prod.snd).map
      (fun c => non_adjacent_form 5 c.val)) =
      prs.map (fun e => (e.1, non_adjacent_form 5 e.2.val)) := by
    rw [List.map_map, List.zip_map']
    rfl
  rw [hz]
  unfold subsetLoop
  rw [subsetLoopAux ps (prs.map (fun e => (e.1, non_adjacent_form 5 e.2.val)))
    (by
      intro e' he'
      rcases List.mem_map.1 he' with ⟨e, he, rfl⟩
      refine ⟨(goodNaf_naf5 _).mono (by norm_num), ?_⟩
      rcases hidx e he with hin | hzero
      · exact Or.inl hin
      · right
        intro i
        show (non_adjacent_form 5 e.2.val).getD i 0 = 0
        rw [hzero, ZMod.val_zero]
        exact nafGo_zero_getD 5 257 i)
    256 (by norm_num) 0]
  simp only [Option.elim]
  congr 1
  rw [smul_zero, zero_add, List.map_map]
  apply congrArg List.sum
  apply listMap_congr
  intro e _
  show lowVal (non_adjacent_form 5 e.2.val) 256 • ps.getD e.1 0 =
    e.2.val • ps.getD e.1 0
  rw [scalar_reconstruct e.2, natCast_zsmul]

theorem subset_eval_pair (ps : List G) (i1 i2 : Nat) (k1 k2 : Scalar)
    (h1 : i1 < ps.length) (h2 : i2 < ps.length) (hlen : 2 ≤ ps.length) :
    vartime_subset_multiscalar_mul (VartimePrecomputedSubsetStraus.new ps)
        [(i1, k1), (i2, k2)] =
      RustResult.ok (k1.val • ps.getD i1 0 + k2.val • ps.getD i2 0) := by
  rw [subset_eval ps [(i1, k1), (i2, k2)]
    (by simpa using hlen)
    (by
      intro e he
      simp only [List.mem_cons, List.mem_singleton, List.not_mem_nil, or_false] at he
      rcases he with rfl | rfl
      · exact Or.inl h1
      · exact Or.inl h2)]
  simp

theorem subset_eval_single (ps : List G) (i : Nat) (k : Scalar)
    (hi : i < ps.length) (hlen : 1 ≤ ps.length) :
    vartime_subset_multiscalar_mul (VartimePrecomputedSubsetStraus.new ps)
        [(i, k)] =
      RustResult.ok (k.val • ps.getD i 0) := by
  rw [subset_eval ps [(i, k)]
    (by simpa using hlen)
    (by
      intro e he
      simp only [List.mem_singleton] at he
      rcases he with rfl
      exact Or.inl hi)]
  simp

theorem mixed_none (tables : List (List G)) (as bs : List Scalar)
    (dps : List (Option G)) (h : none ∈ dps) :
    optional_mixed_multiscalar_mul tables as bs dps = RustResult.ok none := by
  have hcol : collectOption
      (dps.map (fun Popt => Popt.map (nafLookupTable (G := G) 5))) = none := by
    apply collectOption_none
    exact List.mem_map.2 ⟨none, h, rfl⟩
  simp only [optional_mixed_multiscalar_mul, hcol, Option.elim]

theorem mixed_panic (tables : List (List G)) (as bs : List Scalar) (qs : List G)
    (h : ¬(tables.length = as.length ∧ qs.length = bs.length)) :
    optional_mixed_multiscalar_mul tables as bs (qs.map some) =
      RustResult.panicked := by
  have hcol : collectOption ((qs.map some).map
      (fun Popt => Popt.map (nafLookupTable (G := G) 5))) =
      some (qs.map (nafLookupTable 5)) := by
    rw [List.map_map]
    have hc : ((fun Popt => Option.map (nafLookupTable (G := G) 5) Popt) ∘ some) =
        (some ∘ nafLookupTable 5) := by
      funext q
      rfl
    rw [hc, ← List.map_map]
    exact collectOption_map_some _
  simp only [optional_mixed_multiscalar_mul, hcol, Option.elim]
  rw [if_neg (by simpa using h)]

theorem subset_panic_len (tables : List (List G)) (prs : List (Nat × Scalar))
    (h : tables.length < prs.length) :
    vartime_subset_multiscalar_mul tables prs = RustResult.panicked := by
  simp only [vartime_subset_multiscalar_mul]
  rw [if_neg (by simp; omega)]

theorem subsetLoop_none (tables : List (List G)) (prs : List (Nat × List Int))
    {e : Nat × List Int} (he : e ∈ prs) (hoob : tables.length ≤ e.1)
    {j₀ : Nat} (hj : j₀ < 256) (hd : e.2.get? j₀ = some (e.2.getD j₀ 0))
    (hnz : e.2.getD j₀ 0 ≠ 0) :
    subsetLoop tables prs = none := by
  unfold subsetLoop
  apply foldlM_none
  refine ⟨j₀, ?_, ?_⟩
  · rw [List.mem_reverse]
    exact List.mem_range.2 hj
  · intro S
    unfold subsetStep subsetInner
    apply foldlM_none
    refine ⟨e, he, ?_⟩
    intro R
    rw [hd]
    simp only [Option.bind_eq_bind, Option.some_bind]
    exact applyDigitIdx_oob tables hoob hnz R

theorem naf_exists_nonzero (k : Scalar) (hk : k ≠ 0) :
    ∃ j, j < 256 ∧ (non_adjacent_form 5 k.val).getD j 0 ≠ 0 := by
  by_contra hcon
  push_neg at hcon
  have hz : lowVal (non_adjacent_form 5 k.val) 256 = 0 := by
    unfold lowVal
    apply Finset.sum_eq_zero
    intro j hj
    rw [hcon j (Finset.mem_range.1 hj)]
    ring
  rw [scalar_reconstruct k] at hz
  have hv : k.val = 0 := by exact_mod_cast hz
  exact hk (by rwa [ZMod.val_eq_zero] at hv)

theorem subsetInner_zero (tables : List (List G)) (prs : List (Nat × List Int))
    (j : Nat) (h : ∀ e ∈ prs, e.2.get? j = some 0) :
    ∀ R, subsetInner tables prs j R = some R := by
  induction prs with
  | nil => intro R; rfl
  | cons e prs ih =>
    intro R
    simp only [subsetInner, List.foldlM_cons]
    rw [h e (List.mem_cons_self e prs)]
    simp only [Option.bind_eq_bind, Option.some_bind, applyDigitIdx_zero]
    have ih' := ih (fun e' he' => h e' (List.mem_cons_of_mem _ he')) R
    simpa [subsetInner] using ih'

theorem foldRange_zero_digits (tables : List (List G)) (prs : List (Nat × List Int))
    (h : ∀ e ∈ prs, ∀ j, j < 256 → e.2.get? j = some 0) :
    ∀ n, n ≤ 256 → ∀ S₀ : G,
    (List.range n).reverse.foldlM (subsetStep tables prs) S₀ =
      some ((2 ^ n) • S₀) := by
  intro n
  induction n with
  | zero =>
    intro _ S₀
    simp only [List.range_zero, List.reverse_nil, List.foldlM_nil, pow_zero, one_smul]
    rfl
  | succ n ih =>
    intro hn S₀
    have hrev : (List.range (n + 1)).reverse = n :: (List.range n).reverse := by
      rw [List.range_succ, List.reverse_append]
      rfl
    rw [hrev, List.foldlM_cons]
    have hstep : subsetStep tables prs S₀ n = some (S₀ + S₀) :=
      subsetInner_zero tables prs n (fun e he => h e he n (by omega)) (S₀ + S₀)
    rw [hstep]
    simp only [Option.bind_eq_bind, Option.some_bind]
    rw [ih (by omega)]
    congr 1
    rw [smul_add, ← add_nsmul]
    congr 1
    rw [pow_succ]
    ring

theorem innerFold_take (entries : List (List G × List Int)) {j : Nat}
    (hj : j < 256) :
    ∀ R, innerFold (entries.map (fun e => (e.1, e.2.take 256))) j R =
      innerFold entries j R := by
  induction entries with
  | nil => intro R; rfl
  | cons e entries ih =>
    intro R
    simp only [List.map_cons, innerFold, List.foldlM_cons]
    have hget : (e.2.take 256).get? j = e.2.get? j := by
      rw [List.get?_eq_getElem?, List.get?_eq_getElem?]
      exact List.getElem?_take_of_lt hj
    rw [hget]
    cases hres : (e.2.get? j).bind (fun d => applyDigit e.1 d R) with
    | none => simp [hres]
    | some R' =>
      simp only [Option.bind_eq_bind, Option.some_bind]
      have ih' := ih R'
      simpa [innerFold] using ih'

theorem subsetInner_take (tables : List (List G)) (prs : List (Nat × List Int))
    {j : Nat} (hj : j < 256) :
    ∀ R, subsetInner tables (prs.map (fun e => (e.1, e.2.take 256))) j R =
      subsetInner tables prs j R := by
  induction prs with
  | nil => intro R; rfl
  | cons e prs ih =>
    intro R
    simp only [List.map_cons, subsetInner, List.foldlM_cons]
    have hget : (e.2.take 256).get? j = e.2.get? j := by
      rw [List.get?_eq_getElem?, List.get?_eq_getElem?]
      exact List.getElem?_take_of_lt hj
    rw [hget]
    cases hres : (e.2.get? j).bind (fun d => applyDigitIdx tables e.1 d R) with
    | none => simp [hres]
    | some R' =>
      simp only [Option.bind_eq_bind, Option.some_bind]
      have ih' := ih R'
      simpa [subsetInner] using ih'

theorem strausLoop_take (dynE statE : List (List G × List Int)) :
    strausLoop (dynE.map (fun e => (e.1, e.2.take 256)))
        (statE.map (fun e => (e.1, e.2.take 256))) = strausLoop dynE statE := by
  unfold strausLoop
  apply foldlM_congr
  intro j hjmem S
  have hj : j < 256 := List.mem_range.1 (List.mem_reverse.1 hjmem)
  unfold strausStep
  rw [innerFold_take dynE hj]
  cases hres : innerFold dynE j (S + S) with
  | none => simp
  | some R =>
    simp only [Option.bind_eq_bind, Option.some_bind]
    exact innerFold_take statE hj R

theorem subsetLoop_take (tables : List (List G)) (prs : List (Nat × List Int)) :
    subsetLoop tables (prs.map (fun e => (e.1, e.2.take 256))) =
      subsetLoop tables prs := by
  unfold subsetLoop
  apply foldlM_congr
  intro j hjmem S
  have hj : j < 256 := List.mem_range.1 (List.mem_reverse.1 hjmem)
  unfold subsetStep
  exact subsetInner_take tables prs hj (S + S)

theorem list_zip_sum : ∀ (as : List Scalar) (ps : List G), as.length = ps.length →
    ((as.zip ps).map (fun e => e.1.val • e.2)).sum =
      ∑ i in Finset.range ps.length, (as.getD i 0).val • ps.getD i 0 := by
  intro as
  induction as with
  | nil =>
    intro ps h
    have hps : ps = [] := List.length_eq_zero.1 h.symm
    subst hps
    simp
  | cons a as ih =>
    intro ps h
    cases ps with
    | nil => simp at h
    | cons p ps =>
      simp only [List.zip_cons_cons, List.map_cons, List.sum_cons]
      rw [ih ps (by simpa using h), List.length_cons, Finset.sum_range_succ']
      simp only [List.getD_cons_succ, List.getD_cons_zero]
      exact add_comm _ _

theorem subsetLoop257_eval (tables : List (List G)) (prs : List (Nat × List Int))
    (S₁ : G) (R : Option G)
    (hstep : subsetStep tables prs 0 256 = some S₁)
    (hrest : (List.range 256).reverse.foldlM (subsetStep tables prs) S₁ = R) :
    subsetLoop257 tables prs = R := by
  have hrev : (List.range 257).reverse = 256 :: (List.range 256).reverse := by
    rw [show (257 : Nat) = 256 + 1 from rfl, List.range_succ, List.reverse_append]
    rfl
  calc subsetLoop257 tables prs
      = (256 :: (List.range 256).reverse).foldlM (subsetStep tables prs) 0 := by
        unfold subsetLoop257
        rw [hrev]
    _ = subsetStep tables prs 0 256 >>= fun b =>
          (List.range 256).reverse.foldlM (subsetStep tables prs) b :=
        List.foldlM_cons _ _ _ _
    _ = R := by
        rw [hstep]
        simpa using hrest

end GroupLemmas

/-- Claim C1: for every static table set built from points P_1..P_m and every
call with static scalars a_1..a_m, dynamic scalars b_1..b_n and all-present
dynamic points Q_1..Q_n, optional_mixed_multiscalar_mul returns Some of the
direct sum sum(a_i * P_i) + sum(b_j * Q_j) computed by plain scalar
multiplication and group addition without tables. -/
theorem C1_thm (G : Type) [AddCommGroup G] (ps qs : List G)
    (as bs : List Scalar) (h1 : as.length = ps.length)
    (h2 : bs.length = qs.length) :
    optional_mixed_multiscalar_mul (VartimePrecomputedStraus.new ps) as bs
        (qs.map some) =
      RustResult.ok (some (naive_multiscalar as ps + naive_multiscalar bs qs)) := by
  unfold naive_multiscalar
  exact mixed_eval ps qs as bs h1 h2

/-- Witness for C1 at a concrete input. -/
theorem C1_witness :
    optional_mixed_multiscalar_mul (VartimePrecomputedStraus.new [(1 : Int), 2])
        [(3 : Scalar), 5] [] (([] : List Int).map some) =
      RustResult.ok (some (naive_multiscalar [(3 : Scalar), 5] [(1 : Int), 2] +
        naive_multiscalar [] [])) :=
  C1_thm Int [(1 : Int), 2] [] [(3 : Scalar), 5] [] rfl rfl

/-- Claim C2: whenever at least one dynamic point entry is absent (None),
optional_mixed_multiscalar_mul returns None (ok none), regardless of every
other scalar and point supplied; no partial computation is exposed. -/
theorem C2_thm (G : Type) [AddCommGroup G] (tables : List (List G))
    (as bs : List Scalar) (dps : List (Option G)) (h : none ∈ dps) :
    optional_mixed_multiscalar_mul tables as bs dps = RustResult.ok none :=
  mixed_none tables as bs dps h

/-- Witness for C2 at a concrete input. -/
theorem C2_witness :
    optional_mixed_multiscalar_mul ([] : List (List Int)) [] [] [none] =
      RustResult.ok none :=
  C2_thm Int [] [] [] [none] (List.mem_singleton.2 rfl)

/-- Claim C3 counterexample: the evaluation loop does not process digit
position 256.  On a digit sequence that is zero at positions 0..255 and
equal to 1 at position 256, the actual loop (256 positions, j = 255..0)
returns the identity, whereas the loop described by the claim (257
positions, j = 256..0) would return 2^256 * P; the two differ. -/
theorem C3_counterexample :
    subsetLoop [nafLookupTable 8 (1 : Int)]
        [(0, (List.range 257).map (fun j => if j = 256 then (1 : Int) else 0))] ≠
      subsetLoop257 [nafLookupTable 8 (1 : Int)]
        [(0, (List.range 257).map (fun j => if j = 256 then (1 : Int) else 0))] := by
  have hdig : ∀ e ∈ [((0 : Nat),
      (List.range 257).map (fun j => if j = 256 then (1 : Int) else 0))],
      ∀ j, j < 256 → e.2.get? j = some 0 := by
    intro e he j hj
    rcases List.mem_singleton.1 he with rfl
    rw [List.get?_eq_getElem?, List.getElem?_map, List.getElem?_range (by omega)]
    simp only [Option.map_some']
    rw [if_neg (by omega)]
  have h1 : subsetLoop [nafLookupTable 8 (1 : Int)]
      [(0, (List.range 257).map (fun j => if j = 256 then (1 : Int) else 0))] =
      some 0 := by
    unfold subsetLoop
    rw [foldRange_zero_digits _ _ hdig 256 le_rfl 0, smul_zero]
  have hget256 :
      ((List.range 257).map (fun j => if j = 256 then (1 : Int) else 0)).get? 256 =
        some 1 := by
    rw [List.get?_eq_getElem?, List.getElem?_map, List.getElem?_range (by omega)]
    simp
  have happly : applyDigitIdx [nafLookupTable 8 (1 : Int)] 0 1 ((0 : Int) + 0) =
      some (0 + 0 + 1) := by
    unfold applyDigitIdx
    rw [if_pos (by norm_num)]
    rw [show ([nafLookupTable 8 (1 : Int)].get? 0) =
      some (nafLookupTable 8 (1 : Int)) from rfl]
    simp only [Option.bind_eq_bind, Option.some_bind]
    rw [show ((1 : Int).toNat) = 1 from rfl]
    rw [lookupSelect_nafLookupTable (by norm_num) (1 : Int) (by norm_num)
      (by norm_num)]
    simp
  have hstep : subsetStep [nafLookupTable 8 (1 : Int)]
      [(0, (List.range 257).map (fun j => if j = 256 then (1 : Int) else 0))]
      0 256 = some 1 := by
    unfold subsetStep subsetInner
    simp only [List.foldlM_cons, List.foldlM_nil]
    rw [hget256]
    simp only [Option.bind_eq_bind, Option.some_bind]
    rw [happly]
    simp
  have h2 : subsetLoop257 [nafLookupTable 8 (1 : Int)]
      [(0, (List.range 257).map (fun j => if j = 256 then (1 : Int) else 0))] =
      some ((2 ^ 256 : Nat) • (1 : Int)) :=
    subsetLoop257_eval _ _ 1 _ hstep (foldRange_zero_digits _ _ hdig 256 le_rfl 1)
  have h256 : ((2 ^ 256 : Nat) • (1 : Int)) = (2 : Int) ^ 256 := by
    rw [nsmul_eq_mul, mul_one]
    push_cast
  intro hc
  have hinj : (0 : Int) = (2 : Int) ^ 256 :=
    Option.some.inj (((h1.symm.trans hc).trans h2).trans (congrArg some h256))
  exact absurd hinj.symm (ne_of_gt (by positivity))

/-- Claim C3 (amended): both evaluators iterate over exactly 256 digit
positions, from j = 255 down to 0; the extra 257th digit (index 256) of a
NAF sequence is never read by either evaluation loop, so truncating every
digit sequence to its first 256 entries leaves both loops unchanged. -/
theorem C3_thm (G : Type) [AddCommGroup G] :
    (∀ dynE statE : List (List G × List Int),
      strausLoop (dynE.map (fun e => (e.1, e.2.take 256)))
          (statE.map (fun e => (e.1, e.2.take 256))) = strausLoop dynE statE) ∧
    (∀ (tables : List (List G)) (prs : List (Nat × List Int)),
      subsetLoop tables (prs.map (fun e => (e.1, e.2.take 256))) =
        subsetLoop tables prs) :=
  ⟨fun dynE statE => strausLoop_take dynE statE,
   fun tables prs => subsetLoop_take tables prs⟩

/-- Witness for C3 at a concrete input. -/
theorem C3_witness :
    (strausLoop
        (([(nafLookupTable 8 (1 : Int), [(1 : Int)])]).map
          (fun e => (e.1, e.2.take 256)))
        (([] : List (List Int × List Int)).map (fun e => (e.1, e.2.take 256))) =
      strausLoop [(nafLookupTable 8 (1 : Int), [(1 : Int)])] []) ∧
    (subsetLoop ([] : List (List Int))
        (([((0 : Nat), [(1 : Int)])]).map (fun e => (e.1, e.2.take 256))) =
      subsetLoop ([] : List (List Int)) [((0 : Nat), [(1 : Int)])]) :=
  ⟨(C3_thm Int).1 [(nafLookupTable 8 (1 : Int), [(1 : Int)])] [],
   (C3_thm Int).2 [] [((0 : Nat), [(1 : Int)])]⟩

/-- Claim C4: for every static table set and pair list [(i1,k1),(i2,k2)] with
distinct in-range indices, vartime_subset_multiscalar_mul on that list and
optional_mixed_multiscalar_mul with static scalar k1 at i1, k2 at i2 and
zero elsewhere (no dynamic entries) both return the same point
k1*P_i1 + k2*P_i2 (the latter wrapped in Some). -/
theorem C4_thm (G : Type) [AddCommGroup G] (ps : List G) (i1 i2 : Nat)
    (k1 k2 : Scalar) (h1 : i1 < ps.length) (h2 : i2 < ps.length)
    (hne : i1 ≠ i2) :
    vartime_subset_multiscalar_mul (VartimePrecomputedSubsetStraus.new ps)
        [(i1, k1), (i2, k2)] =
      RustResult.ok (k1.val • ps.getD i1 0 + k2.val • ps.getD i2 0) ∧
    optional_mixed_multiscalar_mul (VartimePrecomputedStraus.new ps)
        ((List.range ps.length).map
          (fun i => if i = i1 then k1 else if i = i2 then k2 else 0))
        [] ([] : List (Option G)) =
      RustResult.ok (some (k1.val • ps.getD i1 0 + k2.val • ps.getD i2 0)) := by
  constructor
  · rw [subset_eval ps [(i1, k1), (i2, k2)]
      (by simp only [List.length_cons, List.length_nil]; omega)
      (by
        intro e he
        simp only [List.mem_cons, List.mem_singleton, List.not_mem_nil, or_false] at he
        rcases he with rfl | rfl
        · exact Or.inl h1
        · exact Or.inl h2)]
    simp
  · have hσlen : ((List.range ps.length).map
        (fun i => if i = i1 then k1 else if i = i2 then k2 else 0)).length =
        ps.length := by simp
    have hm := mixed_eval ps ([] : List G)
      ((List.range ps.length).map
        (fun i => if i = i1 then k1 else if i = i2 then k2 else 0))
      ([] : List Scalar) hσlen rfl
    rw [show ((([] : List G)).map some) = ([] : List (Option G)) from rfl] at hm
    rw [hm]
    congr 1
    congr 1
    rw [show ((([] : List Scalar).zip ([] : List G)).map
      (fun e => e.1.val • e.2)).sum = (0 : G) from rfl, add_zero]
    rw [list_zip_sum _ ps hσlen]
    have hgetσ : ∀ i, i < ps.length →
        (((List.range ps.length).map
          (fun i => if i = i1 then k1 else if i = i2 then k2 else 0)).getD i 0) =
        (if i = i1 then k1 else if i = i2 then k2 else 0) := by
      intro i hi
      rw [List.getD_eq_getElem?_getD, List.getElem?_map, List.getElem?_range hi]
      rfl
    rw [Finset.sum_congr rfl (fun i hi => by
      rw [hgetσ i (Finset.mem_range.1 hi)])]
    rw [Finset.sum_eq_add i1 i2 hne
      (fun c _ hcc => by simp [hcc.1, hcc.2, ZMod.val_zero])
      (fun hni => absurd (Finset.mem_range.2 h1) hni)
      (fun hni => absurd (Finset.mem_range.2 h2) hni)]
    simp [Ne.symm hne]

/-- Witness for C4 at a concrete input. -/
theorem C4_witness :
    vartime_subset_multiscalar_mul
        (VartimePrecomputedSubsetStraus.new [(1 : Int), 2])
        [(0, (3 : Scalar)), (1, (5 : Scalar))] =
      RustResult.ok ((3 : Scalar).val • ([(1 : Int), 2]).getD 0 0 +
        (5 : Scalar).val • ([(1 : Int), 2]).getD 1 0) ∧
    optional_mixed_multiscalar_mul (VartimePrecomputedStraus.new [(1 : Int), 2])
        ((List.range ([(1 : Int), 2]).length).map
          (fun i => if i = 0 then (3 : Scalar) else if i = 1 then 5 else 0))
        [] ([] : List (Option Int)) =
      RustResult.ok (some ((3 : Scalar).val • ([(1 : Int), 2]).getD 0 0 +
        (5 : Scalar).val • ([(1 : Int), 2]).getD 1 0)) :=
  C4_thm Int [(1 : Int), 2] 0 1 3 5 (by norm_num) (by norm_num) (by norm_num)

/-- Claim C5 counterexample: duplicate-index additivity fails when the
scalar sum reduces modulo the group order and the table point has order not
dividing it.  Over the group ZMod 2 with table point 1 (order 2), scalars
k1 = ell - 1 and k2 = 1 give subset([(0,k1),(0,k2)]) = (ell-1+1) * 1 = 1,
while k1 + k2 = 0 as scalars, so subset([(0,k1+k2)]) = 0. -/
theorem C5_counterexample :
    vartime_subset_multiscalar_mul
        (VartimePrecomputedSubsetStraus.new [(1 : ZMod 2), 0])
        [(0, ((ell - 1 : Nat) : Scalar)), (0, (1 : Scalar))] ≠
      vartime_subset_multiscalar_mul
        (VartimePrecomputedSubsetStraus.new [(1 : ZMod 2), 0])
        [(0, ((ell - 1 : Nat) : Scalar) + 1)] := by
  have hell : 0 < ell := Nat.pos_of_ne_zero (NeZero.ne ell)
  have hval1 : ((ell - 1 : Nat) : Scalar).val = ell - 1 :=
    ZMod.val_natCast_of_lt (by omega)
  have hodd : ((ell : Nat) : ZMod 2) = 1 := by
    rw [show ((ell : Nat) : ZMod 2) = ((ell % 2 : Nat) : ZMod 2) from
      (ZMod.natCast_mod ell 2).symm]
    rw [show ell % 2 = 1 from by decide]
    norm_num
  have hsm : (ell - 1) • (1 : ZMod 2) = 0 := by
    rw [nsmul_eq_mul, mul_one]
    have hcast : ((ell - 1 : Nat) : ZMod 2) = ((ell : Nat) : ZMod 2) - 1 := by
      rw [Nat.cast_sub (by omega)]
      norm_num
    rw [hcast, hodd, sub_self]
  have hv : (((ell - 1 : Nat) : Scalar)).val • (1 : ZMod 2) +
      ((1 : Scalar)).val • (1 : ZMod 2) = 1 := by
    rw [hval1, ZMod.val_one, hsm, one_smul, zero_add]
  have hLHS : vartime_subset_multiscalar_mul
      (VartimePrecomputedSubsetStraus.new [(1 : ZMod 2), 0])
      [(0, ((ell - 1 : Nat) : Scalar)), (0, (1 : Scalar))] =
      RustResult.ok 1 :=
    (subset_eval_pair [(1 : ZMod 2), 0] 0 0 ((ell - 1 : Nat) : Scalar) 1
      (by norm_num) (by norm_num) (by norm_num)).trans (congrArg RustResult.ok hv)
  have hsum : ((ell - 1 : Nat) : Scalar) + 1 = 0 := by
    rw [show (1 : Scalar) = ((1 : Nat) : Scalar) from by norm_num]
    rw [← Nat.cast_add, show ell - 1 + 1 = ell from by omega, ZMod.natCast_self]
  have hv0 : (((ell - 1 : Nat) : Scalar) + 1).val • (1 : ZMod 2) = 0 := by
    rw [hsum, ZMod.val_zero, zero_smul]
  have hRHS : vartime_subset_multiscalar_mul
      (VartimePrecomputedSubsetStraus.new [(1 : ZMod 2), 0])
      [(0, ((ell - 1 : Nat) : Scalar) + 1)] = RustResult.ok 0 :=
    (subset_eval_single [(1 : ZMod 2), 0] 0 (((ell - 1 : Nat) : Scalar) + 1)
      (by norm_num) (by norm_num)).trans (congrArg RustResult.ok hv0)
  intro hc
  have h01 : (1 : ZMod 2) = 0 := RustResult.ok.inj ((hLHS.symm.trans hc).trans hRHS)
  exact absurd h01 (by decide)

/-- Claim C5 (amended): duplicate indices are not rejected and both
contributions apply additively; subset([(i,k1),(i,k2)]) equals
subset([(i,k1+k2)]) provided the table set has at least two tables (so the
two-pair call passes the count precondition) and the scalar addition k1+k2
does not reduce modulo the group order (k1.val + k2.val < ell). -/
theorem C5_thm (G : Type) [AddCommGroup G] (ps : List G) (i : Nat)
    (k1 k2 : Scalar) (hi : i < ps.length) (hlen : 2 ≤ ps.length)
    (hnowrap : k1.val + k2.val < ell) :
    vartime_subset_multiscalar_mul (VartimePrecomputedSubsetStraus.new ps)
        [(i, k1), (i, k2)] =
      vartime_subset_multiscalar_mul (VartimePrecomputedSubsetStraus.new ps)
        [(i, k1 + k2)] := by
  rw [subset_eval ps [(i, k1), (i, k2)]
    (by simpa using hlen)
    (by
      intro e he
      simp only [List.mem_cons, List.mem_singleton, List.not_mem_nil, or_false] at he
      rcases he with rfl | rfl <;> exact Or.inl hi)]
  rw [subset_eval ps [(i, k1 + k2)]
    (by simp only [List.length_cons, List.length_nil]; omega)
    (by
      intro e he
      simp only [List.mem_singleton] at he
      rcases he with rfl
      exact Or.inl hi)]
  congr 1
  simp only [List.map_cons, List.map_nil, List.sum_cons, List.sum_nil, add_zero]
  have hval : (k1 + k2).val = k1.val + k2.val := by
    rw [ZMod.val_add]
    exact Nat.mod_eq_of_lt hnowrap
  rw [hval, add_nsmul]

/-- Witness for C5 at a concrete input. -/
theorem C5_witness :
    vartime_subset_multiscalar_mul
        (VartimePrecomputedSubsetStraus.new [(1 : Int), 1])
        [(0, (3 : Scalar)), (0, (5 : Scalar))] =
      vartime_subset_multiscalar_mul
        (VartimePrecomputedSubsetStraus.new [(1 : Int), 1])
        [(0, (3 : Scalar) + 5)] :=
  C5_thm Int [(1 : Int), 1] 0 3 5 (by norm_num) (by norm_num) (by decide)

/-- Claim C6: length-precondition violations abort fatally (panic) rather
than returning a value: optional_mixed_multiscalar_mul panics when the
static scalar count differs from the static table count or the dynamic
scalar count differs from the count of (present) dynamic points, and
vartime_subset_multiscalar_mul panics when the pair count exceeds the
static table count. -/
theorem C6_thm (G : Type) [AddCommGroup G] :
    (∀ (tables : List (List G)) (as bs : List Scalar) (qs : List G),
      as.length ≠ tables.length ∨ bs.length ≠ qs.length →
      optional_mixed_multiscalar_mul tables as bs (qs.map some) =
        RustResult.panicked) ∧
    (∀ (tables : List (List G)) (prs : List (Nat × Scalar)),
      tables.length < prs.length →
      vartime_subset_multiscalar_mul tables prs = RustResult.panicked) := by
  constructor
  · intro tables as bs qs h
    apply mixed_panic
    intro hc
    rcases h with h | h
    · exact h hc.1.symm
    · exact h hc.2.symm
  · intro tables prs h
    exact subset_panic_len tables prs h

/-- Witness for C6 at a concrete input. -/
theorem C6_witness :
    (optional_mixed_multiscalar_mul ([] : List (List Int)) [(3 : Scalar)] []
        (([] : List Int).map some) = RustResult.panicked) ∧
    (vartime_subset_multiscalar_mul ([] : List (List Int)) [(0, (1 : Scalar))] =
      RustResult.panicked) :=
  ⟨(C6_thm Int).1 [] [3] [] [] (Or.inl (by norm_num)),
   (C6_thm Int).2 [] [(0, 1)] (by norm_num)⟩

/-- Claim C7: a call to either evaluator with all supplied scalars zero (and,
for the full variant, all dynamic points present) returns the group identity;
and optional_mixed_multiscalar_mul over a one-point table set with the single
static scalar 1 and no dynamic entries returns Some of that point. -/
theorem C7_thm (G : Type) [AddCommGroup G] :
    (∀ ps qs : List G,
      optional_mixed_multiscalar_mul (VartimePrecomputedStraus.new ps)
          (List.replicate ps.length 0) (List.replicate qs.length 0)
          (qs.map some) =
        RustResult.ok (some 0)) ∧
    (∀ (ps : List G) (prs : List (Nat × Scalar)), prs.length ≤ ps.length →
      (∀ e ∈ prs, e.2 = 0) →
      vartime_subset_multiscalar_mul (VartimePrecomputedSubsetStraus.new ps)
          prs =
        RustResult.ok 0) ∧
    (∀ P : G,
      optional_mixed_multiscalar_mul (VartimePrecomputedStraus.new [P]) [1] []
          ([] : List (Option G)) = RustResult.ok (some P)) := by
  refine ⟨?_, ?_, ?_⟩
  · intro ps qs
    rw [mixed_eval ps qs (List.replicate ps.length 0)
      (List.replicate qs.length 0) (by simp) (by simp)]
    have hz1 : (((List.replicate ps.length (0 : Scalar)).zip ps).map
        (fun e => e.1.val • e.2)).sum = (0 : G) := by
      apply List.sum_eq_zero
      intro x hx
      rcases List.mem_map.1 hx with ⟨e, he, rfl⟩
      have h0 : e.1 = 0 := List.eq_of_mem_replicate (List.of_mem_zip he).1
      rw [h0, ZMod.val_zero, zero_smul]
    have hz2 : (((List.replicate qs.length (0 : Scalar)).zip qs).map
        (fun e => e.1.val • e.2)).sum = (0 : G) := by
      apply List.sum_eq_zero
      intro x hx
      rcases List.mem_map.1 hx with ⟨e, he, rfl⟩
      have h0 : e.1 = 0 := List.eq_of_mem_replicate (List.of_mem_zip he).1
      rw [h0, ZMod.val_zero, zero_smul]
    rw [hz1, hz2, add_zero]
  · intro ps prs hlen hz
    rw [subset_eval ps prs hlen (fun e he => Or.inr (hz e he))]
    congr 1
    apply List.sum_eq_zero
    intro x hx
    rcases List.mem_map.1 hx with ⟨e, he, rfl⟩
    rw [hz e he, ZMod.val_zero, zero_smul]
  · intro P
    have hm := mixed_eval [P] ([] : List G) [1] [] rfl rfl
    rw [show ((([] : List G)).map some) = ([] : List (Option G)) from rfl] at hm
    have hv : (([(1 : Scalar)].zip [P]).map (fun e => e.1.val • e.2)).sum +
        ((([] : List Scalar).zip ([] : List G)).map
          (fun e => e.1.val • e.2)).sum = P := by
      rw [show (([(1 : Scalar)].zip [P]).map (fun e => e.1.val • e.2)) =
        [(1 : Scalar).val • P] from rfl]
      rw [show ((([] : List Scalar).zip ([] : List G)).map
        (fun e => e.1.val • e.2)).sum = (0 : G) from rfl]
      rw [List.sum_cons, List.sum_nil, add_zero, add_zero, ZMod.val_one, one_nsmul]
    exact hm.trans (congrArg (fun x => RustResult.ok (some x)) hv)

/-- Witness for C7 at a concrete input. -/
theorem C7_witness :
    (optional_mixed_multiscalar_mul (VartimePrecomputedStraus.new [(3 : Int)])
        (List.replicate ([(3 : Int)]).length 0)
        (List.replicate ([] : List Int).length 0)
        (([] : List Int).map some) =
      RustResult.ok (some 0)) ∧
    (vartime_subset_multiscalar_mul
        (VartimePrecomputedSubsetStraus.new [(3 : Int)]) [(0, (0 : Scalar))] =
      RustResult.ok 0) ∧
    (optional_mixed_multiscalar_mul (VartimePrecomputedStraus.new [(7 : Int)])
        [1] [] ([] : List (Option Int)) = RustResult.ok (some 7)) :=
  ⟨(C7_thm Int).1 [(3 : Int)] [],
   (C7_thm Int).2.1 [(3 : Int)] [(0, 0)] (by norm_num)
     (by
       intro e he
       simp only [List.mem_singleton] at he
       rcases he with rfl
       rfl),
   (C7_thm Int).2.2 (7 : Int)⟩

/-- Claim C8: permuting the supplied entries does not change the result: for
the subset evaluator any permutation of the (index, scalar) pair list, and
for the full evaluator any simultaneous permutation of the paired dynamic
scalars and dynamic points, yields an equal result. -/
theorem C8_thm (G : Type) [AddCommGroup G] :
    (∀ (ps : List G) (as : List Scalar) (d1 d2 : List (Scalar × G)),
      d1.Perm d2 → as.length = ps.length →
      optional_mixed_multiscalar_mul (VartimePrecomputedStraus.new ps) as
          (d1.map Prod.fst) ((d1.map Prod.snd).map some) =
        optional_mixed_multiscalar_mul (VartimePrecomputedStraus.new ps) as
          (d2.map Prod.fst) ((d2.map Prod.snd).map some)) ∧
    (∀ (ps : List G) (p1 p2 : List (Nat × Scalar)),
      p1.Perm p2 → p1.length ≤ ps.length → (∀ e ∈ p1, e.1 < ps.length) →
      vartime_subset_multiscalar_mul (VartimePrecomputedSubsetStraus.new ps)
          p1 =
        vartime_subset_multiscalar_mul (VartimePrecomputedSubsetStraus.new ps)
          p2) := by
  constructor
  · intro ps as d1 d2 hperm hlen
    rw [mixed_eval ps (d1.map Prod.snd) as (d1.map Prod.fst) hlen (by simp),
        mixed_eval ps (d2.map Prod.snd) as (d2.map Prod.fst) hlen (by simp)]
    have hs : ∀ d : List (Scalar × G),
        ((d.map Prod.fst).zip (d.map Prod.snd)).map (fun e => e.1.val • e.2) =
          d.map (fun e => e.1.val • e.2) := by
      intro d
      rw [List.zip_map', List.map_map]
      rfl
    rw [hs d1, hs d2, (hperm.map (fun e => e.1.val • e.2)).sum_eq]
  · intro ps p1 p2 hperm hlen hin
    rw [subset_eval ps p1 hlen (fun e he => Or.inl (hin e he)),
        subset_eval ps p2 (hperm.length_eq ▸ hlen)
          (fun e he => Or.inl (hin e (hperm.mem_iff.2 he)))]
    congr 1
    exact (hperm.map (fun e => e.2.val • ps.getD e.1 0)).sum_eq

/-- Witness for C8 at a concrete input. -/
theorem C8_witness :
    (optional_mixed_multiscalar_mul
        (VartimePrecomputedStraus.new ([] : List Int)) []
        (([((2 : Scalar), (3 : Int)), (4, 5)]).map Prod.fst)
        ((([((2 : Scalar), (3 : Int)), (4, 5)]).map Prod.snd).map some) =
      optional_mixed_multiscalar_mul
        (VartimePrecomputedStraus.new ([] : List Int)) []
        (([((4 : Scalar), (5 : Int)), (2, 3)]).map Prod.fst)
        ((([((4 : Scalar), (5 : Int)), (2, 3)]).map Prod.snd).map some)) ∧
    (vartime_subset_multiscalar_mul
        (VartimePrecomputedSubsetStraus.new [(5 : Int), 7])
        [(0, (1 : Scalar)), (1, 2)] =
      vartime_subset_multiscalar_mul
        (VartimePrecomputedSubsetStraus.new [(5 : Int), 7])
        [(1, (2 : Scalar)), (0, 1)]) :=
  ⟨(C8_thm Int).1 [] [] [((2 : Scalar), (3 : Int)), (4, 5)]
      [((4 : Scalar), (5 : Int)), (2, 3)] (List.Perm.swap _ _ _) rfl,
   (C8_thm Int).2 [(5 : Int), 7] [(0, (1 : Scalar)), (1, 2)]
      [(1, (2 : Scalar)), (0, 1)] (List.Perm.swap _ _ _) (by norm_num)
      (by
        intro e he
        simp only [List.mem_cons, List.mem_singleton, List.not_mem_nil,
          or_false] at he
        rcases he with rfl | rfl <;> norm_num)⟩

/-- Claim C9: vartime_subset_multiscalar_mul never validates pair indices:
a pair whose index is out of range panics as soon as its scalar contributes
a nonzero NAF digit (outcome: panicked), and completes normally when that
scalar is zero (the bad index is never dereferenced); the asserted
precondition bounds only the number of pairs. -/
theorem C9_thm (G : Type) [AddCommGroup G] :
    (∀ (tables : List (List G)) (prs : List (Nat × Scalar)),
      (∃ e ∈ prs, tables.length ≤ e.1 ∧ e.2 ≠ 0) →
      vartime_subset_multiscalar_mul tables prs = RustResult.panicked) ∧
    (∀ (ps : List G) (prs : List (Nat × Scalar)), prs.length ≤ ps.length →
      (∀ e ∈ prs, ps.length ≤ e.1 → e.2 = 0) →
      vartime_subset_multiscalar_mul (VartimePrecomputedSubsetStraus.new ps)
          prs =
        RustResult.ok ((prs.map (fun e => e.2.val • ps.getD e.1 0)).sum)) := by
  constructor
  · rintro tables prs ⟨e, he, hoob, hnz⟩
    by_cases hlen : prs.length ≤ tables.length
    · simp only [vartime_subset_multiscalar_mul]
      rw [if_pos (by simpa using hlen)]
      have hz : (prs.map Prod.fst).zip ((prs.map Prod.snd).map
          (fun c => non_adjacent_form 5 c.val)) =
          prs.map (fun e => (e.1, non_adjacent_form 5 e.2.val)) := by
        rw [List.map_map, List.zip_map']
        rfl
      obtain ⟨j₀, hj₀, hnzd⟩ := naf_exists_nonzero e.2 hnz
      have hnone : subsetLoop tables
          (prs.map (fun e => (e.1, non_adjacent_form 5 e.2.val))) = none :=
        subsetLoop_none tables _ (List.mem_map.2 ⟨e, he, rfl⟩) hoob hj₀
          (get?_eq_getD_of_lt (non_adjacent_form 5 e.2.val) 0
            (by rw [non_adjacent_form_length]; omega)) hnzd
      rw [hz, hnone]
      rfl
    · exact subset_panic_len tables prs (by omega)
  · intro ps prs hlen h
    apply subset_eval ps prs hlen
    intro e he
    by_cases hi : e.1 < ps.length
    · exact Or.inl hi
    · exact Or.inr (h e he (by omega))

/-- Witness for C9 at a concrete input. -/
theorem C9_witness :
    (vartime_subset_multiscalar_mul [[(0 : Int)]] [(5, (1 : Scalar))] =
      RustResult.panicked) ∧
    (vartime_subset_multiscalar_mul
        (VartimePrecomputedSubsetStraus.new [(2 : Int)]) [(5, (0 : Scalar))] =
      RustResult.ok (([(5, (0 : Scalar))].map
        (fun e => e.2.val • ([(2 : Int)]).getD e.1 0)).sum)) :=
  ⟨(C9_thm Int).1 [[(0 : Int)]] [(5, 1)]
      ⟨(5, 1), List.mem_singleton.2 rfl, by norm_num, one_ne_zero⟩,
   (C9_thm Int).2 [(2 : Int)] [(5, 0)] (by norm_num)
      (by
        intro e he
        simp only [List.mem_singleton] at he
        rcases he with rfl
        intro _
        rfl)⟩

/-- Claim C10: the missing-dynamic-point short circuit takes precedence over
the length assertions: with any dynamic point absent, the call returns ok
none even when the static or dynamic lengths mismatch, because the Option
is propagated before the asserts run. -/
theorem C10_thm (G : Type) [AddCommGroup G] (tables : List (List G))
    (as bs : List Scalar) (dps : List (Option G)) (h : none ∈ dps)
    (_hmis : as.length ≠ tables.length ∨ bs.length ≠ dps.length) :
    optional_mixed_multiscalar_mul tables as bs dps = RustResult.ok none :=
  mixed_none tables as bs dps h

/-- Witness for C10 at a concrete input. -/
theorem C10_witness :
    optional_mixed_multiscalar_mul ([] : List (List Int)) [(1 : Scalar)] []
        [none] =
      RustResult.ok none :=
  C10_thm Int [] [(1 : Scalar)] [] [none] (List.mem_singleton.2 rfl)
    (Or.inl (by norm_num))

end PrecomputedStraus

